import Mathlib

set_option maxHeartbeats 1000000
set_option maxRecDepth 8000

/-!
Shallow embedding of `src/epd7in5/epd7in5.go` (Waveshare 7.5 inch e-paper
driver) and proofs about the claims of its specification.

Modelling conventions:
* Bytes are `Nat`; wherever the Go code can overflow a `byte` we reduce
  modulo 256 explicitly.
* The observable behaviour of the driver is a trace.  The byte-framing
  primitives `sendCommand` / `sendData` are embedded at the line level
  (`LineEv`: data/command-select writes, chip-select writes, one SPI byte
  exchange with the response discarded).  The composite operations are
  embedded at the command/data level (`Ev`): each `e.sendCommand(b)` call
  of the source becomes `Ev.cmd b`, each `e.sendData(b)` call becomes
  `Ev.data b`, `time.Sleep(n ms)` becomes `Ev.sleepMs n` and
  `e.waitUntilIdle()` becomes `Ev.waitIdle`.
* GPIO/SPI I/O errors come from the environment; traces model the run in
  which no I/O error occurs.  The only internal failure the code itself
  can produce is an out-of-range buffer index in `Display` (a Go panic);
  operations therefore return their trace paired with a success flag.
* `image.Image` inputs of `Convert` are embedded as `GoImage`: explicit
  bounds plus, for each coordinate, the result of indexing the pixel in
  the two-colour palette `[Black, White]` (`true` = index 1 = white).
-/

/-- Panel width in pixels (`Epd7in5V2Width` in the source). -/
abbrev Epd7in5V2Width : Nat := 800

/-- Panel height in pixels (`Epd7in5V2Height` in the source). -/
abbrev Epd7in5V2Height : Nat := 480

/-- Command constant 0x00 (also used by `Convert`/`Display` as the zero byte). -/
abbrev PanelSetting : Nat := 0x00

/-- Command constant 0x01. -/
abbrev PowerSetting : Nat := 0x01

/-- Command constant 0x02. -/
abbrev PowerOff : Nat := 0x02

/-- Command constant 0x03 (also used by `Display` as the white nibble code). -/
abbrev PowerOffSequenceSetting : Nat := 0x03

/-- Command constant 0x07. -/
abbrev DeepSleep : Nat := 0x07

/-- Command constant 0x10: data start transmission. -/
abbrev DataStartTransmission1 : Nat := 0x10

/-- Command constant 0x12: display refresh. -/
abbrev DisplayRefresh : Nat := 0x12

/-- Command constant 0x80 (also used as the bit mask `0x80` in `Convert`/`Display`). -/
abbrev AutoMeasurementVcom : Nat := 0x80

/-- One observable line-level action of the transport: a write to the
data/command-select line, a write to the chip-select line, or the exchange
of one byte over the SPI channel (the response buffer is nil, i.e. the
response is discarded). -/
inductive LineEv where
  | dc : Bool → LineEv
  | cs : Bool → LineEv
  | tx : Nat → LineEv
  deriving DecidableEq

/-- `sendCommand` of the source: drive DC low, drive CS low, exchange the
single byte `cmd` (response discarded), drive CS high. -/
def sendCommand (cmd : Nat) : List LineEv :=
  [LineEv.dc false, LineEv.cs false, LineEv.tx cmd, LineEv.cs true]

/-- `sendData` of the source: drive DC high, drive CS low, exchange the
single byte `d` (response discarded), drive CS high. -/
def sendData (d : Nat) : List LineEv :=
  [LineEv.dc true, LineEv.cs false, LineEv.tx d, LineEv.cs true]

/-- One command/data level action of the driver: a `sendCommand` call, a
`sendData` call, a fixed sleep (milliseconds), a busy-wait
(`waitUntilIdle`), or a write to the reset line. -/
inductive Ev where
  | cmd : Nat → Ev
  | data : Nat → Ev
  | sleepMs : Nat → Ev
  | waitIdle : Ev
  | rstOut : Bool → Ev
  deriving DecidableEq

/-- Expansion of a command/data level event into line-level events. -/
def Ev.lower : Ev → List LineEv
  | Ev.cmd b => sendCommand b
  | Ev.data b => sendData b
  | _ => []

/-- The controller handle: the panel geometry derived in `New`
(`widthByte = width / 8`, `heightByte = height`).  The four GPIO lines and
the SPI connection are pure I/O handles and carry no data relevant to the
embedded behaviour. -/
structure Epd where
  widthByte : Nat
  heightByte : Nat
  deriving DecidableEq

/-- `New` of the source: geometry fixed to the 7.5 inch V2 panel. -/
def New : Epd :=
  { widthByte := Epd7in5V2Width / 8, heightByte := Epd7in5V2Height }

/-- `Reset` of the source: reset line high, 20 ms, low, 2 ms, high, 20 ms. -/
def Reset : List Ev :=
  [Ev.rstOut true, Ev.sleepMs 20, Ev.rstOut false, Ev.sleepMs 2,
   Ev.rstOut true, Ev.sleepMs 20]

/-- `turnOnDisplay` of the source: display-refresh command, 100 ms settle
delay, busy-wait. -/
def turnOnDisplay : List Ev :=
  [Ev.cmd DisplayRefresh, Ev.sleepMs 100, Ev.waitIdle]

/-- `InitFast` of the source, as the trace of its error-free run. -/
def Epd.InitFast (_ : Epd) : List Ev :=
  Reset ++
  [Ev.cmd 0x00, Ev.data 0x1F,
   Ev.cmd 0x50, Ev.data 0x10, Ev.data 0x07,
   Ev.cmd 0x04, Ev.sleepMs 100, Ev.waitIdle,
   Ev.cmd 0x06, Ev.data 0x27, Ev.data 0x27, Ev.data 0x18, Ev.data 0x17,
   Ev.cmd 0xE0, Ev.data 0x02, Ev.data 0xE5, Ev.data 0x5A]

/-- `InitPart` of the source, as the trace of its error-free run. -/
def Epd.InitPart (_ : Epd) : List Ev :=
  Reset ++
  [Ev.cmd 0x00, Ev.data 0x1F,
   Ev.cmd 0x04, Ev.sleepMs 100, Ev.waitIdle,
   Ev.cmd 0xE0, Ev.data 0x02,
   Ev.cmd 0xE5, Ev.data 0x6E]

/-- Innermost loop of `Clear`: `for k := 0; k < 4; k++ { sendData(0x33) }`. -/
def clearK : Nat → List Ev
  | 0 => []
  | k + 1 => Ev.data 0x33 :: clearK k

/-- Middle loop of `Clear` over the column bytes (`i < widthByte`). -/
def clearI : Nat → List Ev
  | 0 => []
  | i + 1 => clearK 4 ++ clearI i

/-- Outer loop of `Clear` over the rows (`j < heightByte`). -/
def clearJ (wB : Nat) : Nat → List Ev
  | 0 => []
  | j + 1 => clearI wB ++ clearJ wB j

/-- `Clear` of the source: data-start command, then for every row, column
byte and 4-subcycle position one `0x33` data byte, then `turnOnDisplay`.
It has no internal failure path, so the success flag is always `true`. -/
def Epd.Clear (e : Epd) : List Ev × Bool :=
  (Ev.cmd DataStartTransmission1 ::
    (clearJ e.widthByte e.heightByte ++ turnOnDisplay), true)

/-- The `k` loop of `Display` for one device byte.  The loop header reads
`for k := 0; k < 8; k++` but the body increments `k` once more, so it runs
four times; each run extracts two bits of `dataBlack` (MSB first, byte
shifts reduced mod 256 as in Go) and packs two nibbles into one data byte:
`0x00` for a set bit of `dataBlack`, `0x03` for a clear one. -/
def expandLoop : Nat → Nat → List Nat
  | _, 0 => []
  | dataBlack, k + 1 =>
      let hi : Nat :=
        if dataBlack &&& AutoMeasurementVcom > 0 then PanelSetting
        else PowerOffSequenceSetting
      let db1 : Nat := (dataBlack <<< 1) % 256
      let lo : Nat :=
        if db1 &&& AutoMeasurementVcom > 0 then PanelSetting
        else PowerOffSequenceSetting
      let db2 : Nat := (db1 <<< 1) % 256
      (((hi <<< 4) % 256) ||| lo) :: expandLoop db2 k

/-- Per device byte `b` of `Display`: `dataBlack := ^b` (bitwise complement
of the byte), then the four packed data bytes of the `k` loop. -/
def expandByte (b : Nat) : List Nat :=
  expandLoop (b ^^^ 0xFF) 4

/-- Inner loop of `Display` over the column bytes of row `j`: fetches
`img[i + j*widthByte]` (Go panics when the index is out of range, embedded
as the `false` success flag) and emits the four expanded data bytes. -/
def displayRow (img : List Nat) (wB j : Nat) : Nat → Nat → List Ev × Bool
  | _, 0 => ([], true)
  | i, n + 1 =>
      match img[i + j * wB]? with
      | none => ([], false)
      | some b =>
          let rest := displayRow img wB j (i + 1) n
          ((expandByte b).map Ev.data ++ rest.1, rest.2)

/-- Outer loop of `Display` over the rows. -/
def displayRows (img : List Nat) (wB : Nat) : Nat → Nat → List Ev × Bool
  | _, 0 => ([], true)
  | j, m + 1 =>
      let row := displayRow img wB j 0 wB
      if row.2 then
        let rest := displayRows img wB (j + 1) m
        (row.1 ++ rest.1, rest.2)
      else (row.1, false)

/-- `Display` of the source: data-start command, the expanded data bytes of
every device byte, then `turnOnDisplay`.  On an out-of-range index the Go
code panics after the events already transmitted; the flag records this. -/
def Epd.Display (e : Epd) (img : List Nat) : List Ev × Bool :=
  let rows := displayRows img e.widthByte 0 e.heightByte
  if rows.2 then
    (Ev.cmd DataStartTransmission1 :: (rows.1 ++ turnOnDisplay), true)
  else
    (Ev.cmd DataStartTransmission1 :: rows.1, false)

/-- `Sleep` of the source: power-off command, busy-wait, deep-sleep command
with its fixed payload byte 0xA5. -/
def Epd.Sleep (_ : Epd) : List Ev :=
  [Ev.cmd PowerOff, Ev.waitIdle, Ev.cmd DeepSleep, Ev.data 0xA5]

/-- An `image.Image` input of `Convert`: its bounds `Dx`/`Dy` and, for each
coordinate, the value of `color.Palette([Black, White]).Index(img.At(i, j))`
(`true` = index 1 = nearest to white, `false` = index 0 = nearest to black). -/
structure GoImage where
  dx : Nat
  dy : Nat
  At : Nat → Nat → Bool

/-- The `bit` local of the `Convert` loop body: `bgColor = 1` (white) by
default, inside the image bounds the palette index of the pixel. -/
def convertBit (img : GoImage) (i j : Nat) : Nat :=
  if i < img.dx ∧ j < img.dy then (if img.At i j then 1 else 0) else 1

/-- Inner loop of `Convert` over `i < Epd7in5V2Width` for row `j`, carrying
the `byteToSend` accumulator and the output buffer.  A set `bit` ORs
`0x80 >> (i % 8)` into the accumulator; at `i % 8 == 7` the accumulator is
stored at `i/8 + j*widthByte` and reset to `PanelSetting`. -/
def convertCols (img : GoImage) (wB j : Nat) :
    Nat → Nat → Nat → List Nat → Nat × List Nat
  | _, 0, byteToSend, buffer => (byteToSend, buffer)
  | i, n + 1, byteToSend, buffer =>
      let b :=
        if convertBit img i j = 1 then
          byteToSend ||| (AutoMeasurementVcom >>> (i % 8))
        else byteToSend
      if i % 8 = 7 then
        convertCols img wB j (i + 1) n PanelSetting
          (buffer.set (i / 8 + j * wB) b)
      else
        convertCols img wB j (i + 1) n b buffer

/-- Outer loop of `Convert` over `j < Epd7in5V2Height`, threading the
`byteToSend` accumulator across rows exactly as the source does. -/
def convertRows (img : GoImage) (wB : Nat) :
    Nat → Nat → Nat → List Nat → Nat × List Nat
  | _, 0, byteToSend, buffer => (byteToSend, buffer)
  | j, m + 1, byteToSend, buffer =>
      let r := convertCols img wB j 0 Epd7in5V2Width byteToSend buffer
      convertRows img wB (j + 1) m r.1 r.2

/-- `Convert` of the source: buffer pre-filled with `PanelSetting` bytes of
length `widthByte * heightByte`, then the double loop over the full panel
geometry. -/
def Epd.Convert (e : Epd) (img : GoImage) : List Nat :=
  (convertRows img e.widthByte 0 Epd7in5V2Height PanelSetting
    (List.replicate (e.widthByte * e.heightByte) PanelSetting)).2

/-- Proof-facing accumulator for one byte of `Convert`: starting from `b`,
process the bits `s, s+1, ..., s+r-1` of the byte `p` of row `j`. -/
def byteFrom (img : GoImage) (j p : Nat) : Nat → Nat → Nat → Nat
  | b, _, 0 => b
  | b, s, r + 1 =>
      byteFrom img j p
        (if convertBit img (8 * p + s) j = 1 then
          b ||| (AutoMeasurementVcom >>> s)
        else b)
        (s + 1) r

/-- The device-buffer byte `Convert` stores for column byte `p` of row `j`. -/
def byteOf (img : GoImage) (j p : Nat) : Nat :=
  byteFrom img j p 0 0 8

/-- Proof-facing description of one row of `Convert` writes: store
`byteOf img j p` at `p + j*wB` for `m` consecutive values of `p`. -/
def writeRow (img : GoImage) (wB j : Nat) : Nat → Nat → List Nat → List Nat
  | _, 0, buffer => buffer
  | p, m + 1, buffer =>
      writeRow img wB j (p + 1) m (buffer.set (p + j * wB) (byteOf img j p))

/-- Proof-facing description of the `Convert` rows: each row of the loop
performs exactly 100 (= 800 / 8) byte stores. -/
def iterRows (img : GoImage) (wB : Nat) : Nat → Nat → List Nat → List Nat
  | _, 0, buffer => buffer
  | j, m + 1, buffer =>
      iterRows img wB (j + 1) m (writeRow img wB j 0 100 buffer)

/-- The nibble code the `Display` expansion assigns to one device-buffer
bit: `0x3` for a set bit (white), `0x0` for a clear bit (black). -/
def nibbleOf (bit : Bool) : Nat :=
  if bit then PowerOffSequenceSetting else PanelSetting

/-- Number of `Ev.data` events in a trace. -/
def countData : List Ev → Nat
  | [] => 0
  | Ev.data _ :: t => countData t + 1
  | _ :: t => countData t

/-- A full-geometry all-white test image. -/
def allWhiteImg : GoImage :=
  { dx := Epd7in5V2Width, dy := Epd7in5V2Height, At := fun _ _ => true }

/-- A small all-black test image (4 by 4 pixels). -/
def smallBlackImg : GoImage :=
  { dx := 4, dy := 4, At := fun _ _ => false }

/-! ## Clear and init traces -/

lemma clearK_eq (k : Nat) : clearK k = List.replicate k (Ev.data 0x33) := by
  induction k with
  | zero => rfl
  | succ k ih => simp [clearK, ih, List.replicate_succ]

lemma clearI_eq (i : Nat) : clearI i = List.replicate (4 * i) (Ev.data 0x33) := by
  induction i with
  | zero => rfl
  | succ i ih =>
      rw [clearI, clearK_eq, ih, ← List.replicate_add]
      congr 1
      omega

lemma clearJ_eq (wB j : Nat) :
    clearJ wB j = List.replicate (4 * wB * j) (Ev.data 0x33) := by
  induction j with
  | zero => rfl
  | succ j ih =>
      rw [clearJ, clearI_eq, ih, ← List.replicate_add]
      congr 1
      ring

/-- C8: `Clear` sends the data-start command, then exactly
4 x bytes-per-row x rows data bytes all equal to the filler code 0x33,
then the display-refresh command, a fixed 100 ms settle delay, and a
busy-wait; it has no failure of its own. -/
theorem C8_clear_trace :
    New.Clear =
      (Ev.cmd DataStartTransmission1 ::
        (List.replicate (4 * (Epd7in5V2Width / 8 * Epd7in5V2Height))
            (Ev.data 0x33) ++
          [Ev.cmd DisplayRefresh, Ev.sleepMs 100, Ev.waitIdle]), true) := by
  rw [Epd.Clear]
  rw [show New.widthByte = 100 from rfl, show New.heightByte = 480 from rfl]
  rw [clearJ_eq]
  rfl

/-- C9: for every byte, `sendCommand` drives the data/command-select line
low and `sendData` drives it high; each then drives chip-select low,
exchanges exactly the one byte over the channel (response discarded), and
drives chip-select back high, in that order. -/
theorem C9_transport_framing (b : Nat) :
    sendCommand b = [LineEv.dc false, LineEv.cs false, LineEv.tx b, LineEv.cs true] ∧
    sendData b = [LineEv.dc true, LineEv.cs false, LineEv.tx b, LineEv.cs true] :=
  ⟨rfl, rfl⟩

/-- C5: `InitPart` does conclude with command 0xE0 + data 0x02 and then
command 0xE5 + data 0x6E, but `InitFast` sends 0xE5 as a *data* byte:
its trace ends with command 0xE0 followed by the data bytes 0x02, 0xE5,
0x5A, and no 0xE5 command is ever issued.  This contradicts the stated
0xE0/0xE5 register-pair intent which `InitPart` follows. -/
theorem C5_initfast_sends_E5_as_data :
    Ev.cmd 0xE5 ∉ New.InitFast ∧
    Ev.data 0xE5 ∈ New.InitFast ∧
    Ev.cmd 0xE5 ∈ New.InitPart ∧
    Ev.data 0x5A ∈ New.InitFast ∧
    Ev.data 0x6E ∈ New.InitPart ∧
    New.InitFast.drop 19 =
      [Ev.cmd 0xE0, Ev.data 0x02, Ev.data 0xE5, Ev.data 0x5A] := by
  decide

/-! ## Display traces -/

lemma expandLoop_length (k : Nat) : ∀ db, (expandLoop db k).length = k := by
  induction k with
  | zero => intro db; rfl
  | succ k ih => intro db; simp [expandLoop, ih]

lemma expandLoop_mem (k : Nat) :
    ∀ db v, v ∈ expandLoop db k → v = 0x00 ∨ v = 0x03 ∨ v = 0x30 ∨ v = 0x33 := by
  induction k with
  | zero => intro db v h; simp [expandLoop] at h
  | succ k ih =>
      intro db v h
      simp only [expandLoop, List.mem_cons] at h
      rcases h with h | h
      · split at h <;> split at h <;> (subst h; decide)
      · exact ih _ _ h

lemma displayRow_eq (img : List Nat) (wB j : Nat) :
    ∀ n i, i + n + j * wB ≤ img.length →
      displayRow img wB j i n =
        (((img.drop (i + j * wB)).take n).flatMap
            (fun b => (expandByte b).map Ev.data), true) := by
  intro n
  induction n with
  | zero => intro i h; simp [displayRow]
  | succ n ih =>
      intro i h
      have hidx : i + j * wB < img.length := by omega
      simp only [displayRow, List.getElem?_eq_getElem hidx]
      rw [ih (i + 1) (by omega)]
      rw [List.drop_eq_getElem_cons hidx, List.take_succ_cons, List.flatMap_cons]
      have harg : i + j * wB + 1 = i + 1 + j * wB := by omega
      rw [harg]

lemma displayRows_eq (img : List Nat) (wB : Nat) :
    ∀ m j, (j + m) * wB ≤ img.length →
      displayRows img wB j m =
        (((img.drop (j * wB)).take (m * wB)).flatMap
            (fun b => (expandByte b).map Ev.data), true) := by
  intro m
  induction m with
  | zero => intro j h; simp [displayRows]
  | succ m ih =>
      intro j h
      have hrow : 0 + wB + j * wB ≤ img.length := by
        have h1 : (j + 1) * wB ≤ (j + (m + 1)) * wB :=
          Nat.mul_le_mul_right wB (by omega)
        have h2 : 0 + wB + j * wB = (j + 1) * wB := by ring
        omega
      have hrest : (j + 1 + m) * wB ≤ img.length := by
        have h1 : (j + 1 + m) * wB = (j + (m + 1)) * wB := by ring
        omega
      simp only [displayRows]
      rw [displayRow_eq img wB j wB 0 hrow, ih (j + 1) hrest]
      simp only [if_true]
      have hsplit : (m + 1) * wB = wB + m * wB := by ring
      rw [hsplit, List.take_add, List.flatMap_append, List.drop_drop]
      have harg : j * wB + wB = (j + 1) * wB := by ring
      rw [harg]
      simp

lemma display_trace_of_le (img : List Nat) (h : 48000 ≤ img.length) :
    New.Display img =
      (Ev.cmd DataStartTransmission1 ::
        ((img.take 48000).flatMap (fun b => (expandByte b).map Ev.data) ++
          turnOnDisplay), true) := by
  rw [Epd.Display,
    show New.widthByte = 100 from rfl, show New.heightByte = 480 from rfl,
    displayRows_eq img 100 480 0 (by omega)]
  simp

lemma displayRow_fail (img : List Nat) (wB j : Nat) :
    ∀ n i, 1 ≤ n → img.length < i + n + j * wB →
      (displayRow img wB j i n).2 = false := by
  intro n
  induction n with
  | zero => intro i h1 h2; omega
  | succ n ih =>
      intro i _ h2
      simp only [displayRow]
      cases hg : img[i + j * wB]? with
      | none => rfl
      | some b =>
          have hlt : i + j * wB < img.length := by
            by_contra hc
            rw [List.getElem?_eq_none (by omega)] at hg
            cases hg
          have hn : 1 ≤ n := by omega
          simpa using ih (i + 1) hn (by omega)

lemma displayRows_fail (img : List Nat) (wB : Nat) (hw : 1 ≤ wB) :
    ∀ m j, 1 ≤ m → img.length < (j + m) * wB →
      (displayRows img wB j m).2 = false := by
  intro m
  induction m with
  | zero => intro j h1 h2; omega
  | succ m ih =>
      intro j _ h2
      simp only [displayRows]
      by_cases hr : (displayRow img wB j 0 wB).2
      · rw [if_pos hr]
        have hrow : ¬ img.length < 0 + wB + j * wB := by
          intro hc
          rw [displayRow_fail img wB j wB 0 hw hc] at hr
          cases hr
        cases m with
        | zero =>
            exfalso
            have h3 : (j + (0 + 1)) * wB = 0 + wB + j * wB := by ring
            omega
        | succ m =>
            have harg : img.length < (j + 1 + (m + 1)) * wB := by
              have : (j + 1 + (m + 1)) * wB = (j + (m + 1 + 1)) * wB := by ring
              omega
            simpa using ih (j + 1) (by omega) harg
      · rw [if_neg hr]

lemma display_fail_of_short (img : List Nat) (h : img.length < 48000) :
    (New.Display img).2 = false := by
  rw [Epd.Display,
    show New.widthByte = 100 from rfl, show New.heightByte = 480 from rfl]
  have hf := displayRows_fail img 100 (by omega) 480 0 (by omega) (by omega)
  simp [hf]

lemma displayRow_data_mem (img : List Nat) (wB j : Nat) :
    ∀ n i v, Ev.data v ∈ (displayRow img wB j i n).1 →
      v = 0x00 ∨ v = 0x03 ∨ v = 0x30 ∨ v = 0x33 := by
  intro n
  induction n with
  | zero => intro i v h; simp [displayRow] at h
  | succ n ih =>
      intro i v h
      simp only [displayRow] at h
      split at h
      · simp at h
      · simp only [List.mem_append, List.mem_map, List.mem_cons] at h
        rcases h with ⟨a, ha, hav⟩ | h
        · cases hav
          exact expandLoop_mem 4 _ _ ha
        · exact ih (i + 1) v h

lemma displayRows_data_mem (img : List Nat) (wB : Nat) :
    ∀ m j v, Ev.data v ∈ (displayRows img wB j m).1 →
      v = 0x00 ∨ v = 0x03 ∨ v = 0x30 ∨ v = 0x33 := by
  intro m
  induction m with
  | zero => intro j v h; simp [displayRows] at h
  | succ m ih =>
      intro j v h
      simp only [displayRows] at h
      split at h
      · simp only [List.mem_append] at h
        rcases h with h | h
        · exact displayRow_data_mem img wB j wB 0 v h
        · exact ih (j + 1) v h
      · exact displayRow_data_mem img wB j wB 0 v h

lemma display_data_mem (img : List Nat) (v : Nat)
    (h : Ev.data v ∈ (New.Display img).1) :
    v = 0x00 ∨ v = 0x03 ∨ v = 0x30 ∨ v = 0x33 := by
  rw [Epd.Display] at h
  split at h <;>
    simp only [List.mem_cons, List.mem_append] at h
  · rcases h with h | h | h
    · cases h
    · exact displayRows_data_mem img New.widthByte New.heightByte 0 v h
    · simp [turnOnDisplay] at h
  · rcases h with h | h
    · cases h
    · exact displayRows_data_mem img New.widthByte New.heightByte 0 v h

lemma countData_cons_cmd (b : Nat) (t : List Ev) :
    countData (Ev.cmd b :: t) = countData t := by
  simp [countData]

lemma countData_append (l1 l2 : List Ev) :
    countData (l1 ++ l2) = countData l1 + countData l2 := by
  induction l1 with
  | nil => simp [countData]
  | cons e t ih => cases e <;> simp [countData, ih] <;> omega

lemma countData_map_data (l : List Nat) :
    countData (l.map Ev.data) = l.length := by
  induction l with
  | nil => rfl
  | cons b t ih => simp [countData, ih]

lemma countData_flatMap (img : List Nat) :
    countData (img.flatMap (fun b => (expandByte b).map Ev.data)) =
      4 * img.length := by
  induction img with
  | nil => rfl
  | cons b t ih =>
      rw [List.flatMap_cons, countData_append, countData_map_data, ih]
      simp only [expandByte, expandLoop_length, List.length_cons]
      omega


/-- C2 counterexample: on a freshly constructed controller no init call has
happened (spec mode: uninitialized), yet `Clear` transmits a nonempty trace
and reports success instead of failing with a precondition error. -/
theorem C2_counterexample :
    (New.Clear).1 ≠ [] ∧ (New.Clear).2 = true :=
  ⟨List.cons_ne_nil _ _, rfl⟩

/-- C2 (amended): `Display` and `Clear` perform no operating-mode check at
all; invoked on a controller on which no init procedure has ever run they
transmit their full sequences and report success.  No
ProtocolPreconditionError exists in the code. -/
theorem C2_no_mode_precondition :
    (New.Clear).1 ≠ [] ∧ (New.Clear).2 = true ∧
    (New.Display (List.replicate 48000 0)).1 ≠ [] ∧
    (New.Display (List.replicate 48000 0)).2 = true := by
  refine ⟨List.cons_ne_nil _ _, rfl, ?_, ?_⟩
  · rw [display_trace_of_le _ (by rw [List.length_replicate])]
    exact List.cons_ne_nil _ _
  · rw [display_trace_of_le _ (by rw [List.length_replicate])]

/-- C3 counterexample: a buffer of 48001 bytes does not have length
bytes-per-row x rows, yet `Display` transmits a full frame from its first
48000 bytes and reports success instead of rejecting it. -/
theorem C3_counterexample :
    (List.replicate 48001 (0:Nat)).length ≠
      Epd7in5V2Width / 8 * Epd7in5V2Height ∧
    (New.Display (List.replicate 48001 0)).2 = true ∧
    (New.Display (List.replicate 48001 0)).1 ≠ [] := by
  refine ⟨by rw [List.length_replicate]; decide, ?_, ?_⟩
  · rw [display_trace_of_le _ (by rw [List.length_replicate]; omega)]
  · rw [display_trace_of_le _ (by rw [List.length_replicate]; omega)]
    exact List.cons_ne_nil _ _

/-- C3 (amended): `Display` performs no buffer-length validation.  It
always transmits the data-start command first; a buffer of at least
bytes-per-row x rows bytes is transmitted in full with success, and a
shorter buffer makes the Go code panic on an out-of-range index midway
(after partial transmission), embedded as the `false` success flag. -/
theorem C3_no_length_validation (img : List Nat) :
    (New.Display img).1.head? = some (Ev.cmd DataStartTransmission1) ∧
    (Epd7in5V2Width / 8 * Epd7in5V2Height ≤ img.length →
      (New.Display img).2 = true) ∧
    (img.length < Epd7in5V2Width / 8 * Epd7in5V2Height →
      (New.Display img).2 = false) := by
  refine ⟨?_, ?_, ?_⟩
  · simp only [Epd.Display]
    split <;> rfl
  · intro h
    rw [display_trace_of_le img h]
  · intro h
    exact display_fail_of_short img h

/-- C3 witness: a correctly sized buffer satisfies the length hypothesis
and `Display` succeeds on it. -/
theorem C3_witness :
    (New.Display (List.replicate 48000 0)).1.head? =
      some (Ev.cmd DataStartTransmission1) ∧
    Epd7in5V2Width / 8 * Epd7in5V2Height ≤
      (List.replicate 48000 (0:Nat)).length ∧
    (New.Display (List.replicate 48000 0)).2 = true :=
  ⟨(C3_no_length_validation _).1, by rw [List.length_replicate]; decide,
    (C3_no_length_validation _).2.1 (by rw [List.length_replicate]; decide)⟩

/-- C4 counterexample: on a full-geometry buffer `Display` emits four data
bytes per device-buffer byte, 192000 in total, not two per byte. -/
theorem C4_counterexample :
    countData (New.Display (List.replicate 48000 0)).1 = 4 * 48000 ∧
    4 * 48000 ≠ 2 * 48000 := by
  constructor
  · rw [display_trace_of_le _ (by rw [List.length_replicate])]
    rw [List.take_of_length_le (by rw [List.length_replicate])]
    rw [countData_cons_cmd, countData_append, countData_flatMap,
      List.length_replicate]
    simp [turnOnDisplay, countData]
  · omega

/-- C4 (amended): for every buffer of exactly bytes-per-row x rows bytes,
`Display` sends the data-start command and then, for each device-buffer
byte in order, exactly FOUR transport data bytes (eight nibbles across
four bytes) obtained by bit-to-nibble expansion, and finally triggers the
display refresh. -/
theorem C4_display_trace (img : List Nat)
    (h : img.length = Epd7in5V2Width / 8 * Epd7in5V2Height) :
    New.Display img =
      (Ev.cmd DataStartTransmission1 ::
        (img.flatMap (fun b => (expandByte b).map Ev.data) ++ turnOnDisplay),
        true) ∧
    ∀ b ∈ img, ((expandByte b).map Ev.data).length = 4 := by
  have h' : img.length = 48000 := h
  constructor
  · rw [display_trace_of_le img (by omega)]
    rw [List.take_of_length_le (by omega)]
  · intro b _
    simp [expandByte, expandLoop_length]

/-- C4 witness: the all-zero full-geometry buffer. -/
theorem C4_witness :
    (List.replicate 48000 (0:Nat)).length =
      Epd7in5V2Width / 8 * Epd7in5V2Height ∧
    New.Display (List.replicate 48000 0) =
      (Ev.cmd DataStartTransmission1 ::
        ((List.replicate 48000 (0:Nat)).flatMap
          (fun b => (expandByte b).map Ev.data) ++ turnOnDisplay), true) :=
  ⟨by rw [List.length_replicate]; decide,
    (C4_display_trace _ (by rw [List.length_replicate]; decide)).1⟩

/-- C10: `Display` complements each device byte and expands its eight bits
MSB first into eight nibbles packed two per data byte, an original bit 1
(white) becoming nibble 0x3 and a bit 0 (black) becoming nibble 0x0;
consequently every data byte `Display` ever sends is one of
0x00, 0x03, 0x30, 0x33. -/
theorem C10_bit_to_nibble :
    (∀ b : Nat, b < 256 →
      expandByte b =
        [((nibbleOf (b.testBit 7)) <<< 4) ||| nibbleOf (b.testBit 6),
         ((nibbleOf (b.testBit 5)) <<< 4) ||| nibbleOf (b.testBit 4),
         ((nibbleOf (b.testBit 3)) <<< 4) ||| nibbleOf (b.testBit 2),
         ((nibbleOf (b.testBit 1)) <<< 4) ||| nibbleOf (b.testBit 0)]) ∧
    (∀ (img : List Nat) (v : Nat), Ev.data v ∈ (New.Display img).1 →
      v = 0x00 ∨ v = 0x03 ∨ v = 0x30 ∨ v = 0x33) := by
  constructor
  · decide
  · exact display_data_mem

/-- C10 witness: the all-ones byte expands to four 0x33 data bytes, and the
data byte 0x00 sent for an all-zero device byte is in the allowed set. -/
theorem C10_witness :
    ((0xFF:Nat) < 256 ∧ expandByte 0xFF = [0x33, 0x33, 0x33, 0x33]) ∧
    (Ev.data 0x00 ∈ (New.Display ((0:Nat) :: List.replicate 47999 0)).1 ∧
      ((0x00:Nat) = 0x00 ∨ (0x00:Nat) = 0x03 ∨ (0x00:Nat) = 0x30 ∨
        (0x00:Nat) = 0x33)) := by
  have hlen : ((0:Nat) :: List.replicate 47999 0).length = 48000 := by
    rw [List.length_cons, List.length_replicate]
  have hmem : Ev.data 0x00 ∈ (New.Display ((0:Nat) :: List.replicate 47999 0)).1 := by
    rw [display_trace_of_le _ (by omega)]
    rw [List.take_of_length_le (by omega)]
    rw [List.flatMap_cons]
    rw [show expandByte 0 = [0x00, 0x00, 0x00, 0x00] from rfl]
    exact List.mem_cons_of_mem _
      (List.mem_append_left _ (List.mem_append_left _ (List.mem_cons_self _ _)))
  refine ⟨⟨by decide, ?_⟩, hmem, C10_bit_to_nibble.2 _ _ hmem⟩
  rw [C10_bit_to_nibble.1 0xFF (by decide)]
  decide

/-! ## Convert: loop characterisation -/

lemma convertCols_step_mid (img : GoImage) (wB j i n b : Nat) (buf : List Nat)
    (h : i % 8 ≠ 7) :
    convertCols img wB j i (n + 1) b buf =
      convertCols img wB j (i + 1) n
        (if convertBit img i j = 1 then
          b ||| (AutoMeasurementVcom >>> (i % 8))
        else b) buf := by
  simp only [convertCols, if_neg h]

lemma convertCols_step_end (img : GoImage) (wB j i n b : Nat) (buf : List Nat)
    (h : i % 8 = 7) :
    convertCols img wB j i (n + 1) b buf =
      convertCols img wB j (i + 1) n PanelSetting
        (buf.set (i / 8 + j * wB)
          (if convertBit img i j = 1 then
            b ||| (AutoMeasurementVcom >>> (i % 8))
          else b)) := by
  simp only [convertCols, if_pos h]

lemma convertCols_byte (img : GoImage) (wB j p : Nat) :
    ∀ r s b n buf, s + (r + 1) = 8 →
      convertCols img wB j (8 * p + s) (n + (r + 1)) b buf =
        convertCols img wB j (8 * p + 8) n PanelSetting
          (buf.set (p + j * wB) (byteFrom img j p b s (r + 1))) := by
  intro r
  induction r with
  | zero =>
      intro s b n buf hs
      have hs7 : s = 7 := by omega
      subst hs7
      have hmod : (8 * p + 7) % 8 = 7 := by omega
      have hdiv : (8 * p + 7) / 8 = p := by omega
      rw [convertCols_step_end img wB j (8 * p + 7) n b buf hmod, hmod, hdiv,
        show 8 * p + 7 + 1 = 8 * p + 8 from by omega]
      rfl
  | succ r ih =>
      intro s b n buf hs
      have hmod : (8 * p + s) % 8 = s := by omega
      have hne : (8 * p + s) % 8 ≠ 7 := by omega
      rw [show n + (r + 1 + 1) = (n + (r + 1)) + 1 from by omega]
      rw [convertCols_step_mid img wB j (8 * p + s) (n + (r + 1)) b buf hne, hmod]
      rw [show 8 * p + s + 1 = 8 * p + (s + 1) from by omega]
      rw [ih (s + 1) _ n buf (by omega)]
      rfl

lemma convertCols_row (img : GoImage) (wB j : Nat) :
    ∀ m p buf,
      convertCols img wB j (8 * p) (8 * m) PanelSetting buf =
        (PanelSetting, writeRow img wB j p m buf) := by
  intro m
  induction m with
  | zero =>
      intro p buf
      rfl
  | succ m ih =>
      intro p buf
      have h2 := convertCols_byte img wB j p 7 0 PanelSetting (8 * m) buf (by omega)
      rw [show 8 * p + 0 = 8 * p from by omega] at h2
      rw [show 8 * (m + 1) = 8 * m + (7 + 1) from by omega, h2,
        show 8 * p + 8 = 8 * (p + 1) from by omega, ih (p + 1) _]
      rfl

lemma convertRows_eq (img : GoImage) (wB : Nat) :
    ∀ m j buf,
      convertRows img wB j m PanelSetting buf =
        (PanelSetting, iterRows img wB j m buf) := by
  intro m
  induction m with
  | zero => intro j buf; rfl
  | succ m ih =>
      intro j buf
      have hc := convertCols_row img wB j 100 0 buf
      rw [show (8 * 0 : Nat) = 0 from rfl,
        show (8 * 100 : Nat) = Epd7in5V2Width from rfl] at hc
      simp only [convertRows]
      rw [hc]
      dsimp only
      rw [ih (j + 1) (writeRow img wB j 0 100 buf)]
      rfl

lemma writeRow_length (img : GoImage) (wB j : Nat) :
    ∀ m p buf, (writeRow img wB j p m buf).length = buf.length := by
  intro m
  induction m with
  | zero => intro p buf; rfl
  | succ m ih =>
      intro p buf
      simp only [writeRow]
      rw [ih (p + 1) _, List.length_set]

lemma iterRows_length (img : GoImage) (wB : Nat) :
    ∀ m j buf, (iterRows img wB j m buf).length = buf.length := by
  intro m
  induction m with
  | zero => intro j buf; rfl
  | succ m ih =>
      intro j buf
      simp only [iterRows]
      rw [ih (j + 1) _, writeRow_length]

lemma writeRow_get_lt (img : GoImage) (wB j : Nat) :
    ∀ m p0 buf q, q < p0 + j * wB →
      (writeRow img wB j p0 m buf)[q]? = buf[q]? := by
  intro m
  induction m with
  | zero => intro p0 buf q h; rfl
  | succ m ih =>
      intro p0 buf q h
      simp only [writeRow]
      rw [ih (p0 + 1) _ q (by omega)]
      exact List.getElem?_set_ne (by omega)

lemma writeRow_get_hit (img : GoImage) (wB j : Nat) :
    ∀ m p0 p buf, p0 ≤ p → p < p0 + m → p + j * wB < buf.length →
      (writeRow img wB j p0 m buf)[p + j * wB]? = some (byteOf img j p) := by
  intro m
  induction m with
  | zero => intro p0 p buf h1 h2 h3; omega
  | succ m ih =>
      intro p0 p buf h1 h2 h3
      simp only [writeRow]
      by_cases hp : p = p0
      · subst hp
        rw [writeRow_get_lt img wB j m (p + 1) _ (p + j * wB) (by omega)]
        exact List.getElem?_set_eq_of_lt (byteOf img j p) h3
      · exact ih (p0 + 1) p _ (by omega) (by omega)
          (by rw [List.length_set]; exact h3)

lemma iterRows_get_lt (img : GoImage) :
    ∀ m j buf q, q < j * 100 →
      (iterRows img 100 j m buf)[q]? = buf[q]? := by
  intro m
  induction m with
  | zero => intro j buf q h; rfl
  | succ m ih =>
      intro j buf q h
      simp only [iterRows]
      rw [ih (j + 1) _ q (by omega)]
      exact writeRow_get_lt img 100 j 100 0 buf q (by omega)

lemma iterRows_get_hit (img : GoImage) :
    ∀ m j j0 p buf, j ≤ j0 → j0 < j + m → p < 100 →
      p + j0 * 100 < buf.length →
      (iterRows img 100 j m buf)[p + j0 * 100]? = some (byteOf img j0 p) := by
  intro m
  induction m with
  | zero => intro j j0 p buf h1 h2 h3 h4; omega
  | succ m ih =>
      intro j j0 p buf h1 h2 h3 h4
      simp only [iterRows]
      by_cases hj : j0 = j
      · subst hj
        rw [iterRows_get_lt img m (j0 + 1) _ (p + j0 * 100) (by omega)]
        exact writeRow_get_hit img 100 j0 100 0 p buf (by omega) (by omega) h4
      · exact ih (j + 1) j0 p _ (by omega) (by omega) h3
          (by rw [writeRow_length]; exact h4)

lemma convert_get (img : GoImage) (p j : Nat) (hp : p < 100) (hj : j < 480) :
    (New.Convert img)[p + j * 100]? = some (byteOf img j p) := by
  rw [Epd.Convert, show New.widthByte = 100 from rfl,
    show New.heightByte = 480 from rfl,
    show (Epd7in5V2Height : Nat) = 480 from rfl,
    convertRows_eq img 100 480 0 (List.replicate (100 * 480) PanelSetting)]
  dsimp only
  exact iterRows_get_hit img 480 0 j p _ (by omega) (by omega) hp
    (by rw [List.length_replicate]; omega)

/-! ## Convert: bit-level characterisation -/

lemma shift_testBit :
    ∀ s, s < 8 → ∀ t, t < 8 →
      ((AutoMeasurementVcom : Nat) >>> s).testBit (7 - t) = decide (t = s) := by
  decide

lemma orShift_testBit_ne (b s u : Nat) (hs : s < 8) (hu : u < 8) (hne : u ≠ s) :
    (b ||| (AutoMeasurementVcom >>> s)).testBit (7 - u) = b.testBit (7 - u) := by
  rw [Nat.testBit_lor, shift_testBit s hs u hu]
  simp [hne]

lemma orShift_testBit_self (b s : Nat) (hs : s < 8)
    (hb : b.testBit (7 - s) = false) :
    (b ||| (AutoMeasurementVcom >>> s)).testBit (7 - s) = true := by
  rw [Nat.testBit_lor, hb, shift_testBit s hs s hs]
  simp

lemma byteFrom_testBit (img : GoImage) (j p : Nat) :
    ∀ r s b, s + r = 8 →
      (∀ u, s ≤ u → u < 8 → b.testBit (7 - u) = false) →
      ∀ t, t < 8 →
        (byteFrom img j p b s r).testBit (7 - t) =
          if s ≤ t then decide (convertBit img (8 * p + t) j = 1)
          else b.testBit (7 - t) := by
  intro r
  induction r with
  | zero =>
      intro s b hs hb t ht
      rw [if_neg (by omega)]
      rfl
  | succ r ih =>
      intro s b hs hb t ht
      have hs8 : s < 8 := by omega
      simp only [byteFrom]
      by_cases hcc : convertBit img (8 * p + s) j = 1
      · rw [if_pos hcc]
        rw [ih (s + 1) (b ||| (AutoMeasurementVcom >>> s)) (by omega)
          (fun u hu1 hu2 =>
            by rw [orShift_testBit_ne b s u hs8 hu2 (by omega)]
               exact hb u (by omega) hu2) t ht]
        rcases Nat.lt_trichotomy t s with h | h | h
        · rw [if_neg (by omega), if_neg (by omega)]
          exact orShift_testBit_ne b s t hs8 ht (by omega)
        · subst h
          rw [if_neg (by omega), if_pos (by omega)]
          rw [orShift_testBit_self b t hs8 (hb t (by omega) ht)]
          simp [hcc]
        · rw [if_pos (by omega), if_pos (by omega)]
      · rw [if_neg hcc]
        rw [ih (s + 1) b (by omega) (fun u hu1 hu2 => hb u (by omega) hu2) t ht]
        rcases Nat.lt_trichotomy t s with h | h | h
        · rw [if_neg (by omega), if_neg (by omega)]
        · subst h
          rw [if_neg (by omega), if_pos (by omega)]
          rw [hb t (by omega) ht]
          simp [hcc]
        · rw [if_pos (by omega), if_pos (by omega)]

lemma byteOf_testBit (img : GoImage) (j p t : Nat) (ht : t < 8) :
    (byteOf img j p).testBit (7 - t) =
      decide (convertBit img (8 * p + t) j = 1) := by
  have h := byteFrom_testBit img j p 8 0 0 (by omega)
    (fun u _ _ => Nat.zero_testBit _) t ht
  rw [byteOf, h, if_pos (by omega)]

/-- C1 counterexample: on the full-geometry all-white image the first byte
of the buffer produced by `Convert` is 0xFF, which is not of the form
(nibble << 4) | nibble with each nibble one of the two claimed codes
(0x0 from the shifted 0x00 for white and 0x8, the nibble of 0x80, for
black), i.e. not one of 0x00, 0x08, 0x80, 0x88.  `Convert` produces plain
1-bit-per-pixel bytes; the nibble expansion only happens in `Display`. -/
theorem C1_counterexample :
    ¬ (∀ b ∈ New.Convert allWhiteImg,
        b = 0x00 ∨ b = 0x08 ∨ b = 0x80 ∨ b = 0x88) := by
  intro h
  have hg : (New.Convert allWhiteImg)[0]? = some 255 := by
    have hc := convert_get allWhiteImg 0 0 (by omega) (by omega)
    rw [show (0 : Nat) + 0 * 100 = 0 from by omega] at hc
    rw [hc, show byteOf allWhiteImg 0 0 = 255 from rfl]
  have := h 255 (List.getElem?_mem hg)
  omega

/-- C1 (amended): every byte of the buffer produced by `Convert` encodes
EIGHT horizontally adjacent pixels, one bit per pixel, most significant
bit first; a bit is 1 exactly when the pixel thresholds to white (or lies
outside the image).  The two-nibble-per-pixel expansion belongs to the
transmission path in `Display`, not to the `Convert` buffer. -/
theorem C1_bytes_pack_eight_pixels (img : GoImage) (p j r : Nat)
    (hp : p < 100) (hj : j < 480) (hr : r < 8) :
    ∃ b, (New.Convert img)[p + j * 100]? = some b ∧
      (b.testBit (7 - r) = true ↔ convertBit img (8 * p + r) j = 1) := by
  refine ⟨byteOf img j p, convert_get img p j hp hj, ?_⟩
  rw [byteOf_testBit img j p r hr]
  simp

/-- C1 witness: the all-white image at byte 0, bit 0. -/
theorem C1_witness :
    (0 : Nat) < 100 ∧ (0 : Nat) < 480 ∧ (0 : Nat) < 8 ∧
    ∃ b, (New.Convert allWhiteImg)[0 + 0 * 100]? = some b ∧
      (b.testBit (7 - 0) = true ↔ convertBit allWhiteImg (8 * 0 + 0) 0 = 1) :=
  ⟨by omega, by omega, by omega,
    C1_bytes_pack_eight_pixels allWhiteImg 0 0 0 (by omega) (by omega) (by omega)⟩

/-- C6: for every input image, whatever its dimensions, `Convert` returns a
buffer of length exactly (panel width / 8) x panel height. -/
theorem C6_convert_length (img : GoImage) :
    (New.Convert img).length = Epd7in5V2Width / 8 * Epd7in5V2Height := by
  rw [Epd.Convert, show New.widthByte = 100 from rfl,
    show New.heightByte = 480 from rfl,
    show (Epd7in5V2Height : Nat) = 480 from rfl,
    convertRows_eq img 100 480 0 (List.replicate (100 * 480) PanelSetting)]
  dsimp only
  rw [iterRows_length, List.length_replicate]
  rfl

/-- C7: for every image smaller than the panel in either dimension, every
panel coordinate outside the image bounds is encoded as white (its bit is
set) in the buffer produced by `Convert`. -/
theorem C7_out_of_bounds_white (img : GoImage) (i j : Nat)
    (hsmall : img.dx < Epd7in5V2Width ∨ img.dy < Epd7in5V2Height)
    (hi : i < Epd7in5V2Width) (hj : j < Epd7in5V2Height)
    (hout : ¬ (i < img.dx ∧ j < img.dy)) :
    ∃ b, (New.Convert img)[i / 8 + j * 100]? = some b ∧
      b.testBit (7 - i % 8) = true := by
  have hi800 : i < 800 := hi
  have hj480 : j < 480 := hj
  refine ⟨byteOf img j (i / 8),
    convert_get img (i / 8) j (by omega) (by omega), ?_⟩
  have h := byteOf_testBit img j (i / 8) (i % 8) (by omega)
  rw [show 8 * (i / 8) + i % 8 = i from by omega] at h
  rw [h]
  simp [convertBit, hout]

/-- C7 witness: a 4 x 4 all-black image and the out-of-bounds panel
coordinate (column 10, row 0). -/
theorem C7_witness :
    (smallBlackImg.dx < Epd7in5V2Width ∨ smallBlackImg.dy < Epd7in5V2Height) ∧
    (10 : Nat) < Epd7in5V2Width ∧ (0 : Nat) < Epd7in5V2Height ∧
    ¬ ((10 : Nat) < smallBlackImg.dx ∧ (0 : Nat) < smallBlackImg.dy) ∧
    ∃ b, (New.Convert smallBlackImg)[10 / 8 + 0 * 100]? = some b ∧
      b.testBit (7 - 10 % 8) = true :=
  ⟨Or.inl (by decide), by decide, by decide, by decide,
    C7_out_of_bounds_white smallBlackImg 10 0 (Or.inl (by decide)) (by decide)
      (by decide) (by decide)⟩

/-- C6 witness: the all-white image. -/
theorem C6_witness :
    (New.Convert allWhiteImg).length = Epd7in5V2Width / 8 * Epd7in5V2Height :=
  C6_convert_length allWhiteImg

/-- C9 witness: the display-refresh byte 0x12. -/
theorem C9_witness :
    sendCommand 0x12 =
      [LineEv.dc false, LineEv.cs false, LineEv.tx 0x12, LineEv.cs true] ∧
    sendData 0x12 =
      [LineEv.dc true, LineEv.cs false, LineEv.tx 0x12, LineEv.cs true] :=
  C9_transport_framing 0x12
